import Mathlib

/-!
Verification of the answer-ranking engine of the Fortytwo swarm bot
(`src/bot.ts`): the functions `pairwiseJudge` and `directRank`, the
tournament comparison schedule, and the caller-side result validation in
`processPendingChallenges`.

The TypeScript code is shallowly embedded as follows.

* `AnswerEntry` mirrors the `AnswerEntry` interface (`id`, `content`).
* The LLM oracle (`askLLM` followed by `JSON.parse`) is modelled by the
  `Oracle` structure.  A pairwise-comparison call (tournament mode) is a
  function from the call index (the number of oracle calls issued so far
  in the round) to a `PairResult`: `winA` / `winB` when the parsed reply
  names a winner, `tie` when it parses but names neither (the code only
  increments on `"A"` or `"B"`), and `failure` when `askLLM` throws or
  `JSON.parse` throws (the `catch {}` swallows it).  The single direct
  call (2-3 candidates) is a `DirectResult`: `fail` when anything in the
  `try` block throws, or `ok rankedIds goodIds` for a reply whose
  `answer_rankings` / `good_answers` fields iterate as the given lists
  of strings (absent fields iterate as `[]`; non-string or unknown
  entries behave exactly like unknown identifier strings, so lists of
  strings lose no generality).
* `winCounts` in `bot.ts` is a plain JavaScript object whose keys are
  the answer ids, inserted in input order, and `Object.entries`
  enumerates own keys in ECMA-262 order: canonical array-index keys
  (the decimal strings "0", "1", ... below 2^32 - 1, no leading zeros)
  first in ascending numeric order, then the remaining string keys in
  insertion order.  `isCanonicalIndex` and `jsKeyOrder` model this.
* `Array.prototype.sort` with the comparator `(,a),(,b) => b - a` is a
  stable sort ordering entries by descending count (ES2019 guarantees
  stability, and a stable sort's output is unique), modelled by
  `List.insertionSort cmpDesc`, which is stable.
* JavaScript `Set` membership (`has`) and iteration (insertion order,
  first occurrence kept) are modelled by `dedupKeepFirst` and
  `List.contains`.
-/

namespace SwormBot

/-- A candidate answer: an opaque identifier plus textual content
(the `AnswerEntry` interface in `bot.ts`). -/
structure AnswerEntry where
  id : String
  content : String
  deriving DecidableEq

/-- Outcome of one pairwise oracle call, as observed by the `try` block in
`pairwiseJudge`: the parsed winner field is `"A"`, `"B"`, anything else
(`tie`), or the call / parse threw (`failure`).  `tie` and `failure` are
both swallowed without incrementing any tally. -/
inductive PairResult where
  | winA
  | winB
  | tie
  | failure

/-- Outcome of the single structured oracle call made by `directRank`:
either some step of the `try` block threw (`fail`), or the parsed reply
yielded the two id lists. -/
inductive DirectResult where
  | fail
  | ok (rankedIds : List String) (goodIds : List String)

/-- One round's oracle behavior: a pairwise verdict for every call index,
plus the verdict of the one direct-ranking call. -/
structure Oracle where
  pair : Nat → PairResult
  direct : DirectResult

/-- Value of a list of decimal digit characters (most significant first). -/
def digitsVal (cs : List Char) : Nat :=
  cs.foldl (fun n c => n * 10 + (c.toNat - 48)) 0

/-- ECMA-262 canonical array-index string: `"0"`, or a nonempty digit
string with no leading zero whose value is below `2 ^ 32 - 1`. -/
def isCanonicalIndex (s : String) : Bool :=
  match s.data with
  | [] => false
  | [c] => c.isDigit
  | c :: cs =>
      c.isDigit && c != '0' && cs.all Char.isDigit &&
        decide (digitsVal (c :: cs) < 4294967295)

/-- Numeric value of a key string (used to order array-index keys). -/
def numVal (s : String) : Nat :=
  digitsVal s.data

/-- Ascending order on key strings by numeric value. -/
def numLe (a b : String) : Prop :=
  numVal a ≤ numVal b

instance : DecidableRel numLe := fun a b => Nat.decLe (numVal a) (numVal b)

/-- First-occurrence step of JavaScript `Set` insertion / object key
creation: append the element unless it is already present. -/
def ddfStep (acc : List String) (id : String) : List String :=
  if acc.contains id then acc else acc ++ [id]

/-- First-occurrence deduplication, preserving order: the key list of a
JavaScript object whose keys were assigned in the order of `l`, and the
iteration order of `new Set(l)`. -/
def dedupKeepFirst (l : List String) : List String :=
  l.foldl ddfStep []

/-- ECMA-262 own-property enumeration order for string keys created in
the order of `keys`: canonical array-index keys in ascending numeric
order first, then the other keys in insertion order. -/
def jsKeyOrder (keys : List String) : List String :=
  List.insertionSort numLe (keys.filter isCanonicalIndex)
    ++ keys.filter (fun k => !isCanonicalIndex k)

/-- Descending order on `(id, count)` entries by count:
the JavaScript comparator `([, a], [, b]) => b - a`. -/
def cmpDesc (a b : String × Nat) : Prop :=
  b.2 ≤ a.2

instance : DecidableRel cmpDesc := fun a b => Nat.decLe b.2 a.2

instance : IsTotal (String × Nat) cmpDesc :=
  ⟨fun a b => Nat.le_total b.2 a.2⟩

instance : IsTrans (String × Nat) cmpDesc :=
  ⟨fun _ _ _ hab hbc => Nat.le_trans hbc hab⟩

/-- The tournament comparison schedule of `pairwiseJudge`:
`for i in 0..n-1: pairs.push([i, (i+1) % n]); pairs.push([i, (i+2) % n])`. -/
def pairsSchedule (n : Nat) : List (Nat × Nat) :=
  (List.range n).foldl
    (fun acc i => acc ++ [(i, (i + 1) % n), (i, (i + 2) % n)]) []

/-- The scheduled pairs that actually reach the oracle: the loop body
starts with `if (iA === iB) continue`. -/
def comparedPairs (n : Nat) : List (Nat × Nat) :=
  (pairsSchedule n).filter (fun p => p.1 != p.2)

/-- `winCounts[id]++`. -/
def bump (f : String → Nat) (id : String) : String → Nat :=
  fun x => if x = id then f x + 1 else f x

/-- `answers[i]!.id` (every scheduled index is below `answers.length`,
so the default is never read on scheduled pairs). -/
def answerIdAt (answers : List AnswerEntry) (i : Nat) : String :=
  (answers.getD i ⟨"", ""⟩).id

/-- One iteration of the comparison loop of `pairwiseJudge`, acting on
the pair (number of oracle calls issued so far, current tally):
coincident pairs are skipped without an oracle call; otherwise one call
is issued and only an `"A"` / `"B"` verdict increments a tally. -/
def stepPair (answers : List AnswerEntry) (opair : Nat → PairResult)
    (st : Nat × (String → Nat)) (p : Nat × Nat) : Nat × (String → Nat) :=
  if p.1 = p.2 then st
  else
    match opair st.1 with
    | .winA => (st.1 + 1, bump st.2 (answerIdAt answers p.1))
    | .winB => (st.1 + 1, bump st.2 (answerIdAt answers p.2))
    | .tie => (st.1 + 1, st.2)
    | .failure => (st.1 + 1, st.2)

/-- The final win tally of one tournament round (`winCounts` in
`bot.ts`, initialized to `0` for every id). -/
def winCounts (answers : List AnswerEntry) (opair : Nat → PairResult) :
    String → Nat :=
  ((pairsSchedule answers.length).foldl (stepPair answers opair)
    (0, fun _ => 0)).2

/-- One iteration of `directRank`'s first loop:
`if (allIds.has(id) && !finalRankings.includes(id)) finalRankings.push(id)`. -/
def pickStep (allIds acc : List String) (id : String) : List String :=
  if allIds.contains id && !acc.contains id then acc ++ [id] else acc

/-- `directRank` from `bot.ts`.  On any throw inside the `try` block the
`catch` returns the input order as both lists.  Otherwise: keep ranked
ids that are known and not yet kept, append every known id not yet kept
(in `Set` iteration order, i.e. first-occurrence input order — the
second loop's body is exactly `ddfStep`), filter the good ids for
membership, and default an empty filtered good list to the top-ranked
candidate.  (`[finalRankings[0]]` is modelled by `finalRankings.take 1`;
the append loop puts every input id into `finalRankings`, so the two
agree whenever `answers` is nonempty, and `directRank` is only ever
called with 2 or 3 answers.) -/
def directRank (answers : List AnswerEntry) (o : Oracle) :
    List String × List String :=
  match o.direct with
  | .fail => (answers.map (·.id), answers.map (·.id))
  | .ok rankedIds goodIds =>
      let allIds := dedupKeepFirst (answers.map (·.id))
      let picked := rankedIds.foldl (pickStep allIds) []
      let finalRankings := allIds.foldl ddfStep picked
      let validGood := goodIds.filter (fun id => allIds.contains id)
      let finalGood :=
        if validGood.length > 0 then validGood else finalRankings.take 1
      (finalRankings, finalGood)

/-- The tournament path of `pairwiseJudge` (4 or more answers): tally
wins over the schedule, read the tally object's entries in JavaScript
key order, stably sort them by descending count
(`Object.entries(winCounts).sort(([, a], [, b]) => b - a).map(([id]) => id)`),
and mark the top `Math.max(1, Math.ceil(sorted.length / 2))` of the
ranking as good (`Math.ceil(len / 2)` is `(len + 1) / 2` on naturals). -/
def tournamentRank (answers : List AnswerEntry) (o : Oracle) :
    List String × List String :=
  let f := winCounts answers o.pair
  let entries :=
    (jsKeyOrder (dedupKeepFirst (answers.map (·.id)))).map
      (fun id => (id, f id))
  let sorted := (List.insertionSort cmpDesc entries).map Prod.fst
  let goodCount := max 1 ((sorted.length + 1) / 2)
  (sorted, sorted.take goodCount)

/-- `pairwiseJudge` from `bot.ts`: identity on 0 or 1 answers, one
structured call (`directRank`) on 2-3 answers, the pairwise tournament
on 4 or more. -/
def pairwiseJudge (answers : List AnswerEntry) (o : Oracle) :
    List String × List String :=
  if answers.length ≤ 1 then
    (answers.map (·.id), answers.map (·.id))
  else if answers.length ≤ 3 then
    directRank answers o
  else
    tournamentRank answers o

/-- The ranking check of `processPendingChallenges`: the round is kept
unless `rankings.length !== allIds.size` or some known id is missing
from `rankings` (`allIds = new Set(answerIds)`). -/
def validRankings (answerIds rankings : List String) : Bool :=
  rankings.length == (dedupKeepFirst answerIds).length &&
    (dedupKeepFirst answerIds).all (fun id => rankings.contains id)

/-- The good-answers check of `processPendingChallenges`: the round is
kept unless some good id is outside the known id set. -/
def validGoodAnswers (answerIds good : List String) : Bool :=
  good.all (fun id => (dedupKeepFirst answerIds).contains id)

/-- A judging result is submitted exactly when both caller-side checks
pass; otherwise the round is skipped. -/
def acceptResult (answerIds rankings good : List String) : Bool :=
  validRankings answerIds rankings && validGoodAnswers answerIds good

/-- An oracle whose every call throws (transport failure). -/
def allFailOracle : Oracle :=
  ⟨fun _ => .failure, .fail⟩

/-- An oracle that answers every pairwise comparison with a tie. -/
def allTieOracle : Oracle :=
  ⟨fun _ => .tie, .fail⟩

/-- Modelled from the spec (§4.1, direct ranking validation), for the
refinement claim about `directRank`: discard unknown identifiers, keep
the first occurrence of each known one, then append every omitted known
identifier in original input order. -/
def specDirectRankings (ids rankedIds : List String) : List String :=
  let kept := dedupKeepFirst (rankedIds.filter (fun id => ids.contains id))
  kept ++ ids.filter (fun id => !kept.contains id)

/-! ### Basic lemmas about the JavaScript collection models -/

theorem contains_true_iff (l : List String) (a : String) :
    l.contains a = true ↔ a ∈ l :=
  List.elem_iff

theorem ddfFold_mem (l acc : List String) (x : String) :
    x ∈ l.foldl ddfStep acc ↔ x ∈ acc ∨ x ∈ l := by
  induction l generalizing acc with
  | nil => simp
  | cons a l ih =>
      rw [List.foldl_cons, ih]
      unfold ddfStep
      by_cases h : acc.contains a = true
      · rw [if_pos h]
        have ha : a ∈ acc := (contains_true_iff acc a).mp h
        simp only [List.mem_cons]
        constructor
        · tauto
        · rintro (h1 | rfl | h2) <;> tauto
      · rw [if_neg h]
        simp only [List.mem_append, List.mem_singleton, List.mem_cons]
        tauto

theorem ddfFold_nodup (l acc : List String) (h : acc.Nodup) :
    (l.foldl ddfStep acc).Nodup := by
  induction l generalizing acc with
  | nil => simpa using h
  | cons a l ih =>
      rw [List.foldl_cons]
      unfold ddfStep
      by_cases hc : acc.contains a = true
      · rw [if_pos hc]; exact ih _ h
      · rw [if_neg hc]
        refine ih _ ?_
        have ha : a ∉ acc := fun hm => hc ((contains_true_iff acc a).mpr hm)
        simp [List.nodup_append, h, ha]

theorem ddfFold_eq_append_filter (l acc : List String) (h : l.Nodup) :
    l.foldl ddfStep acc = acc ++ l.filter (fun id => !acc.contains id) := by
  induction l generalizing acc with
  | nil => simp
  | cons a l ih =>
      rw [List.foldl_cons, List.filter_cons]
      rcases List.nodup_cons.mp h with ⟨ha, hl⟩
      by_cases hc : acc.contains a = true
      · have hstep : ddfStep acc a = acc := by
          unfold ddfStep
          rw [if_pos hc]
        rw [hstep, ih _ hl]
        have hmem : a ∈ acc := (contains_true_iff acc a).mp hc
        simp [hc, hmem]
      · have hstep : ddfStep acc a = acc ++ [a] := by
          unfold ddfStep
          rw [if_neg hc]
        rw [hstep, ih _ hl]
        have hfc : l.filter (fun id => !(acc ++ [a]).contains id)
            = l.filter (fun id => !acc.contains id) := by
          apply List.filter_congr
          intro x hx
          have hxa : x ≠ a := fun e => ha (e ▸ hx)
          simp [contains_true_iff, List.mem_append, hxa]
        rw [hfc]
        have hmem : a ∉ acc := fun hm => hc ((contains_true_iff acc a).mpr hm)
        simp [hc, hmem, List.append_assoc]

theorem dedupKeepFirst_mem (l : List String) (x : String) :
    x ∈ dedupKeepFirst l ↔ x ∈ l := by
  unfold dedupKeepFirst
  rw [ddfFold_mem]
  simp

theorem dedupKeepFirst_nodup (l : List String) : (dedupKeepFirst l).Nodup :=
  ddfFold_nodup l [] List.nodup_nil

theorem dedupKeepFirst_eq_self (l : List String) (h : l.Nodup) :
    dedupKeepFirst l = l := by
  unfold dedupKeepFirst
  rw [ddfFold_eq_append_filter l [] h]
  simp

theorem pickFold_eq (allIds r acc : List String) :
    r.foldl (pickStep allIds) acc
      = (r.filter (fun id => allIds.contains id)).foldl ddfStep acc := by
  induction r generalizing acc with
  | nil => rfl
  | cons a r ih =>
      rw [List.foldl_cons, List.filter_cons]
      by_cases hc : a ∈ allIds
      · rw [if_pos (by simpa using hc), List.foldl_cons, ih]
        have hstep : pickStep allIds acc a = ddfStep acc a := by
          unfold pickStep ddfStep
          by_cases hac : a ∈ acc <;> simp [hc, hac]
        rw [hstep]
      · rw [if_neg (by simpa using hc), ih]
        have hstep : pickStep allIds acc a = acc := by
          unfold pickStep
          simp [hc]
        rw [hstep]

theorem jsKeyOrder_perm (keys : List String) : (jsKeyOrder keys).Perm keys := by
  unfold jsKeyOrder
  exact ((List.perm_insertionSort numLe _).append_right _).trans
    (List.filter_append_perm _ keys)

/-! ### The tournament comparison schedule -/

theorem foldl_append_eq_flatMap {α β : Type} (g : α → List β) (l : List α)
    (init : List β) :
    l.foldl (fun acc i => acc ++ g i) init = init ++ l.flatMap g := by
  induction l generalizing init with
  | nil => simp
  | cons a l ih => simp [ih, List.flatMap_cons, List.append_assoc]

theorem pairsSchedule_eq (n : Nat) :
    pairsSchedule n
      = (List.range n).flatMap
          (fun i => [(i, (i + 1) % n), (i, (i + 2) % n)]) := by
  have h := foldl_append_eq_flatMap
    (fun i => [(i, (i + 1) % n), (i, (i + 2) % n)]) (List.range n) []
  simpa [pairsSchedule] using h

theorem countP_flatMap {α β : Type} (p : β → Bool) (g : α → List β)
    (l : List α) :
    (l.flatMap g).countP p = (l.map (fun i => (g i).countP p)).sum := by
  induction l with
  | nil => simp
  | cons a l ih => simp [List.flatMap_cons, List.countP_append, ih]

theorem sum_map_single {α : Type} [DecidableEq α] (l : List α) (j : α) (c : Nat)
    (hn : l.Nodup) (hj : j ∈ l) :
    (l.map (fun i => if i = j then c else 0)).sum = c := by
  induction l with
  | nil => cases hj
  | cons a l ih =>
      rcases List.nodup_cons.mp hn with ⟨ha, hl⟩
      rcases List.mem_cons.mp hj with rfl | hj2
      · have hz : (l.map (fun i => if i = j then c else 0)).sum = 0 := by
          apply List.sum_eq_zero
          intro x hx
          rcases List.mem_map.mp hx with ⟨i, hi, rfl⟩
          rw [if_neg]
          rintro rfl
          exact ha hi
        simp [hz]
      · have hne : (if a = j then c else 0) = 0 := by
          rw [if_neg]
          rintro rfl
          exact ha hj2
        simp [hne, ih hl hj2]

theorem sum_map_const_nat {α : Type} (l : List α) (c : Nat) :
    (l.map (fun _ => c)).sum = l.length * c := by
  induction l with
  | nil => simp
  | cons a l ih =>
      simp only [List.map_cons, List.sum_cons, ih, List.length_cons]
      ring

theorem sum_map_add_nat {α : Type} (l : List α) (f g : α → Nat) :
    (l.map (fun i => f i + g i)).sum = (l.map f).sum + (l.map g).sum := by
  induction l with
  | nil => simp
  | cons a l ih =>
      simp only [List.map_cons, List.sum_cons, ih]
      ring

theorem countP_eq_sum_map {α : Type} (p : α → Bool) (l : List α) :
    l.countP p = (l.map (fun i => if p i = true then 1 else 0)).sum := by
  induction l with
  | nil => simp
  | cons a l ih =>
      rw [List.countP_cons, List.map_cons, List.sum_cons, ih]
      ring

theorem countP_eq_one_of_unique {α : Type} (p : α → Bool) (l : List α) (a : α)
    (hn : l.Nodup) (ha : a ∈ l) (hp : p a = true)
    (hu : ∀ b ∈ l, p b = true → b = a) :
    l.countP p = 1 := by
  induction l with
  | nil => cases ha
  | cons x l ih =>
      rcases List.nodup_cons.mp hn with ⟨hx, hl⟩
      rcases List.mem_cons.mp ha with rfl | ha2
      · have hz : l.countP p = 0 := by
          rw [List.countP_eq_zero]
          intro b hb hpb
          exact hx ((hu b (List.mem_cons_of_mem _ hb) hpb) ▸ hb)
        rw [List.countP_cons, hz, if_pos hp]
      · have hpx : ¬p x = true := by
          intro hpx
          exact hx ((hu x (List.mem_cons_self x l) hpx).symm ▸ ha2)
        rw [List.countP_cons, if_neg hpx,
          ih hl ha2 (fun b hb hpb => hu b (List.mem_cons_of_mem _ hb) hpb)]

theorem mod_two_block {n a : Nat} (_hn : 0 < n) (ha : a < 2 * n) :
    a % n = if a < n then a else a - n := by
  by_cases h : a < n
  · rw [if_pos h, Nat.mod_eq_of_lt h]
  · rw [if_neg h]
    have h1 : n ≤ a := Nat.le_of_not_lt h
    rw [Nat.mod_eq_sub_mod h1, Nat.mod_eq_of_lt (by omega)]

theorem countP_range_shift {n k j : Nat} (hk : 0 < k) (hkn : k ≤ n)
    (hj : j < n) :
    (List.range n).countP (fun i => (i + k) % n == j) = 1 := by
  have hn : 0 < n := Nat.lt_of_lt_of_le hk hkn
  by_cases hkj : k ≤ j
  · apply countP_eq_one_of_unique _ _ (j - k) (List.nodup_range n)
    · rw [List.mem_range]; omega
    · have hb : j - k + k < 2 * n := by omega
      rw [beq_iff_eq, mod_two_block hn hb, if_pos (by omega)]
      omega
    · intro b hb hpb
      rw [List.mem_range] at hb
      rw [beq_iff_eq, mod_two_block hn (by omega)] at hpb
      split_ifs at hpb <;> omega
  · apply countP_eq_one_of_unique _ _ (j + n - k) (List.nodup_range n)
    · rw [List.mem_range]; omega
    · have hb : j + n - k + k < 2 * n := by omega
      rw [beq_iff_eq, mod_two_block hn hb, if_neg (by omega)]
      omega
    · intro b hb hpb
      rw [List.mem_range] at hb
      rw [beq_iff_eq, mod_two_block hn (by omega)] at hpb
      split_ifs at hpb <;> omega

theorem schedule_countP_left {n j : Nat} (hj : j < n) :
    (pairsSchedule n).countP (fun p => p.1 == j) = 2 := by
  rw [pairsSchedule_eq, countP_flatMap]
  have hpt : (List.range n).map
        (fun i => ([(i, (i + 1) % n), (i, (i + 2) % n)].countP
          (fun p => p.1 == j)))
      = (List.range n).map (fun i => if i = j then 2 else 0) := by
    apply List.map_congr_left
    intro i _
    by_cases h : i = j
    · subst h
      simp [List.countP_cons]
    · simp [List.countP_cons, h]
  rw [hpt, sum_map_single _ _ _ (List.nodup_range n) (List.mem_range.mpr hj)]

theorem schedule_countP_right {n j : Nat} (hn : 2 ≤ n) (hj : j < n) :
    (pairsSchedule n).countP (fun p => p.2 == j) = 2 := by
  rw [pairsSchedule_eq, countP_flatMap]
  have hpt : (List.range n).map
        (fun i => ([(i, (i + 1) % n), (i, (i + 2) % n)].countP
          (fun p => p.2 == j)))
      = (List.range n).map
          (fun i => (if ((i + 1) % n == j) = true then 1 else 0)
            + (if ((i + 2) % n == j) = true then 1 else 0)) := by
    apply List.map_congr_left
    intro i _
    rw [List.countP_cons, List.countP_cons, List.countP_nil]
    ring
  rw [hpt, sum_map_add_nat, ← countP_eq_sum_map, ← countP_eq_sum_map,
    countP_range_shift (by omega) (by omega) hj,
    countP_range_shift (by omega) hn hj]

theorem schedule_ne {n : Nat} (hn : 3 ≤ n) :
    ∀ p ∈ pairsSchedule n, p.1 ≠ p.2 := by
  intro p hp
  rw [pairsSchedule_eq, List.mem_flatMap] at hp
  rcases hp with ⟨i, hi, hp⟩
  rw [List.mem_range] at hi
  have hn0 : 0 < n := by omega
  rcases List.mem_cons.mp hp with rfl | hp2
  · intro he
    simp only at he
    rw [mod_two_block hn0 (by omega)] at he
    split_ifs at he <;> omega
  · rcases List.mem_cons.mp hp2 with rfl | hp3
    · intro he
      simp only at he
      rw [mod_two_block hn0 (by omega)] at he
      split_ifs at he <;> omega
    · cases hp3

theorem comparedPairs_eq {n : Nat} (hn : 3 ≤ n) :
    comparedPairs n = pairsSchedule n := by
  unfold comparedPairs
  rw [List.filter_eq_self]
  intro p hp
  simpa [bne_iff_ne] using schedule_ne hn p hp

theorem schedule_length (n : Nat) : (pairsSchedule n).length = 2 * n := by
  rw [pairsSchedule_eq, List.length_flatMap]
  simp only [Function.comp_def]
  have hpt : (List.range n).map
        (fun i => ([(i, (i + 1) % n), (i, (i + 2) % n)] : List (Nat × Nat)).length)
      = (List.range n).map (fun _ => 2) :=
    List.map_congr_left (fun i _ => rfl)
  rw [hpt, sum_map_const_nat]
  simp [Nat.mul_comm]

theorem countP_or_disjoint {α : Type} (p q : α → Bool) (l : List α)
    (h : ∀ a ∈ l, ¬(p a = true ∧ q a = true)) :
    l.countP (fun a => p a || q a) = l.countP p + l.countP q := by
  induction l with
  | nil => simp
  | cons a l ih =>
      rw [List.countP_cons, List.countP_cons, List.countP_cons,
        ih (fun b hb => h b (List.mem_cons_of_mem _ hb))]
      have := h a (List.mem_cons_self a l)
      by_cases hp : p a = true
      · have hq : ¬q a = true := fun hq => this ⟨hp, hq⟩
        simp [hp, hq]
        ring
      · by_cases hq : q a = true
        · simp [hp, hq]
          ring
        · simp [hp, hq]

theorem jsKeyOrder_eq_self (keys : List String)
    (h : ∀ k ∈ keys, isCanonicalIndex k = false) : jsKeyOrder keys = keys := by
  unfold jsKeyOrder
  have h1 : keys.filter isCanonicalIndex = [] := by
    rw [List.filter_eq_nil_iff]
    intro a ha
    simp [h a ha]
  have h2 : keys.filter (fun k => !isCanonicalIndex k) = keys := by
    rw [List.filter_eq_self]
    intro a ha
    simp [h a ha]
  rw [h1, h2]
  rfl

/-! ### Win tallies under degenerate oracles -/

theorem foldl_stepPair_snd_id (answers : List AnswerEntry)
    (opair : Nat → PairResult)
    (hp : ∀ k, opair k = .tie ∨ opair k = .failure)
    (ps : List (Nat × Nat)) (st : Nat × (String → Nat)) :
    (ps.foldl (stepPair answers opair) st).2 = st.2 := by
  induction ps generalizing st with
  | nil => rfl
  | cons p ps ih =>
      rw [List.foldl_cons, ih]
      unfold stepPair
      by_cases h : p.1 = p.2
      · rw [if_pos h]
      · rw [if_neg h]
        rcases hp st.1 with he | he <;> rw [he]

theorem winCounts_no_wins (answers : List AnswerEntry)
    (opair : Nat → PairResult)
    (hp : ∀ k, opair k = .tie ∨ opair k = .failure) :
    winCounts answers opair = fun _ => 0 := by
  unfold winCounts
  rw [foldl_stepPair_snd_id answers opair hp]

/-! ### Stability of the descending stable sort -/

theorem filter_orderedInsert_sorted (c : Nat) (x : String × Nat)
    (m : List (String × Nat)) (hm : m.Sorted cmpDesc) :
    (m.orderedInsert cmpDesc x).filter (fun p => p.2 == c)
      = (if x.2 == c then [x] else []) ++ m.filter (fun p => p.2 == c) := by
  induction m with
  | nil =>
      simp only [List.orderedInsert, List.filter_cons, List.filter_nil]
      split_ifs <;> simp
  | cons y m ih =>
      rw [List.orderedInsert]
      by_cases h : cmpDesc x y
      · rw [if_pos h]
        simp only [List.filter_cons]
        split_ifs <;> simp
      · rw [if_neg h]
        simp only [List.filter_cons]
        rw [ih hm.of_cons]
        by_cases hx : (x.2 == c) = true
        · by_cases hy : (y.2 == c) = true
          · exfalso
            apply h
            unfold cmpDesc
            rw [beq_iff_eq] at hx hy
            omega
          · simp [hx, hy]
        · simp [hx]

theorem filter_insertionSort (c : Nat) (l : List (String × Nat)) :
    (List.insertionSort cmpDesc l).filter (fun p => p.2 == c)
      = l.filter (fun p => p.2 == c) := by
  induction l with
  | nil => rfl
  | cons x l ih =>
      simp only [List.insertionSort]
      rw [filter_orderedInsert_sorted c x _ (List.sorted_insertionSort cmpDesc l),
        ih]
      simp only [List.filter_cons]
      split_ifs <;> simp

theorem filter_map_fst (f : String → Nat) (c : Nat) (M : List (String × Nat))
    (hM : ∀ p ∈ M, p.2 = f p.1) :
    (M.map Prod.fst).filter (fun id => f id == c)
      = (M.filter (fun p => p.2 == c)).map Prod.fst := by
  induction M with
  | nil => rfl
  | cons p M ih =>
      have hp : p.2 = f p.1 := hM p (List.mem_cons_self p M)
      have hM2 : ∀ q ∈ M, q.2 = f q.1 :=
        fun q hq => hM q (List.mem_cons_of_mem p hq)
      simp only [List.map_cons, List.filter_cons]
      by_cases h : (f p.1 == c) = true
      · rw [if_pos h, if_pos (by rw [hp]; exact h), List.map_cons, ih hM2]
      · rw [if_neg h, if_neg (by rw [hp]; exact h), ih hM2]

/-! ### Unfolding the three branches of pairwiseJudge -/

theorem pairwiseJudge_small (answers : List AnswerEntry) (o : Oracle)
    (h : answers.length ≤ 1) :
    pairwiseJudge answers o = (answers.map (·.id), answers.map (·.id)) := by
  unfold pairwiseJudge
  rw [if_pos h]

theorem pairwiseJudge_direct (answers : List AnswerEntry) (o : Oracle)
    (h1 : 2 ≤ answers.length) (h3 : answers.length ≤ 3) :
    pairwiseJudge answers o = directRank answers o := by
  unfold pairwiseJudge
  rw [if_neg (by omega), if_pos h3]

theorem pairwiseJudge_tournament (answers : List AnswerEntry) (o : Oracle)
    (h : 4 ≤ answers.length) :
    pairwiseJudge answers o = tournamentRank answers o := by
  unfold pairwiseJudge
  rw [if_neg (by omega), if_neg (by omega)]

/-! ### Structure of the tournament result -/

theorem tournamentRank_rankings (answers : List AnswerEntry) (o : Oracle) :
    (tournamentRank answers o).1
      = (List.insertionSort cmpDesc
          ((jsKeyOrder (dedupKeepFirst (answers.map (·.id)))).map
            (fun id => (id, winCounts answers o.pair id)))).map Prod.fst :=
  rfl

theorem tournamentRank_good (answers : List AnswerEntry) (o : Oracle) :
    (tournamentRank answers o).2
      = (tournamentRank answers o).1.take
          (max 1 (((tournamentRank answers o).1.length + 1) / 2)) :=
  rfl

theorem map_fst_entries (keys : List String) (f : String → Nat) :
    ((keys.map (fun id => (id, f id))).map Prod.fst) = keys := by
  induction keys with
  | nil => rfl
  | cons a keys ih => simp only [List.map_cons, ih]

theorem tournamentRank_perm (answers : List AnswerEntry) (o : Oracle)
    (h : (answers.map (·.id)).Nodup) :
    (tournamentRank answers o).1.Perm (answers.map (·.id)) := by
  rw [tournamentRank_rankings]
  refine ((List.perm_insertionSort cmpDesc _).map Prod.fst).trans ?_
  rw [map_fst_entries, dedupKeepFirst_eq_self _ h]
  exact jsKeyOrder_perm _

theorem tournamentRank_filter_stable (answers : List AnswerEntry) (o : Oracle)
    (c : Nat) :
    (tournamentRank answers o).1.filter
        (fun id => winCounts answers o.pair id == c)
      = (jsKeyOrder (dedupKeepFirst (answers.map (·.id)))).filter
          (fun id => winCounts answers o.pair id == c) := by
  rw [tournamentRank_rankings]
  have hM : ∀ p ∈ List.insertionSort cmpDesc
        ((jsKeyOrder (dedupKeepFirst (answers.map (·.id)))).map
          (fun id => (id, winCounts answers o.pair id))),
      p.2 = winCounts answers o.pair p.1 := by
    intro p hp
    have hp2 := (List.perm_insertionSort cmpDesc _).mem_iff.mp hp
    rcases List.mem_map.mp hp2 with ⟨id, _, rfl⟩
    rfl
  have hM2 : ∀ p ∈ (jsKeyOrder (dedupKeepFirst (answers.map (·.id)))).map
        (fun id => (id, winCounts answers o.pair id)),
      p.2 = winCounts answers o.pair p.1 := by
    intro p hp
    rcases List.mem_map.mp hp with ⟨id, _, rfl⟩
    rfl
  rw [filter_map_fst _ c _ hM, filter_insertionSort,
    ← filter_map_fst _ c _ hM2, map_fst_entries]

theorem tournamentRank_pairwise (answers : List AnswerEntry) (o : Oracle) :
    (tournamentRank answers o).1.Pairwise
      (fun a b => winCounts answers o.pair b ≤ winCounts answers o.pair a) := by
  rw [tournamentRank_rankings, List.pairwise_map]
  have hs : (List.insertionSort cmpDesc
      ((jsKeyOrder (dedupKeepFirst (answers.map (·.id)))).map
        (fun id => (id, winCounts answers o.pair id)))).Pairwise cmpDesc :=
    List.sorted_insertionSort cmpDesc _
  refine hs.imp_of_mem ?_
  intro a b ha hb hab
  have ha2 := (List.perm_insertionSort cmpDesc _).mem_iff.mp ha
  have hb2 := (List.perm_insertionSort cmpDesc _).mem_iff.mp hb
  rcases List.mem_map.mp ha2 with ⟨ia, _, rfl⟩
  rcases List.mem_map.mp hb2 with ⟨ib, _, rfl⟩
  exact hab

/-! ### Structure of directRank -/

theorem directRank_fail (answers : List AnswerEntry) (o : Oracle)
    (hd : o.direct = .fail) :
    directRank answers o = (answers.map (·.id), answers.map (·.id)) := by
  unfold directRank
  rw [hd]

theorem directRank_ok_rankings_fold (answers : List AnswerEntry) (o : Oracle)
    (r g : List String) (hd : o.direct = .ok r g) :
    (directRank answers o).1
      = (dedupKeepFirst (answers.map (·.id))).foldl ddfStep
          (r.foldl (pickStep (dedupKeepFirst (answers.map (·.id)))) []) := by
  unfold directRank
  rw [hd]

theorem directRank_ok_good_fold (answers : List AnswerEntry) (o : Oracle)
    (r g : List String) (hd : o.direct = .ok r g) :
    (directRank answers o).2
      = (if (g.filter
            (fun id => (dedupKeepFirst (answers.map (·.id))).contains id)).length > 0
         then g.filter
            (fun id => (dedupKeepFirst (answers.map (·.id))).contains id)
         else (directRank answers o).1.take 1) := by
  unfold directRank
  rw [hd]

theorem directRank_ok_nodup (answers : List AnswerEntry) (o : Oracle)
    (r g : List String) (hd : o.direct = .ok r g) :
    (directRank answers o).1.Nodup := by
  rw [directRank_ok_rankings_fold answers o r g hd]
  apply ddfFold_nodup
  rw [pickFold_eq]
  exact ddfFold_nodup _ _ List.nodup_nil

theorem directRank_ok_mem (answers : List AnswerEntry) (o : Oracle)
    (r g : List String) (hd : o.direct = .ok r g) (x : String) :
    x ∈ (directRank answers o).1 ↔ x ∈ answers.map (·.id) := by
  rw [directRank_ok_rankings_fold answers o r g hd, ddfFold_mem]
  constructor
  · rintro (hx | hx)
    · rw [pickFold_eq, ddfFold_mem] at hx
      rcases hx with hx | hx
      · cases hx
      · have hc := (List.mem_filter.mp hx).2
        exact (dedupKeepFirst_mem _ _).mp ((contains_true_iff _ _).mp hc)
    · exact (dedupKeepFirst_mem _ _).mp hx
  · intro hx
    exact Or.inr ((dedupKeepFirst_mem _ _).mpr hx)

theorem directRank_ok_perm (answers : List AnswerEntry) (o : Oracle)
    (r g : List String) (hd : o.direct = .ok r g)
    (h : (answers.map (·.id)).Nodup) :
    (directRank answers o).1.Perm (answers.map (·.id)) := by
  apply List.Subperm.antisymm
  · exact (directRank_ok_nodup answers o r g hd).subperm
      (fun x hx => (directRank_ok_mem answers o r g hd x).mp hx)
  · exact h.subperm
      (fun x hx => (directRank_ok_mem answers o r g hd x).mpr hx)

theorem directRank_ok_rankings_spec (answers : List AnswerEntry) (o : Oracle)
    (r g : List String) (hd : o.direct = .ok r g) :
    (directRank answers o).1
      = specDirectRankings (dedupKeepFirst (answers.map (·.id))) r := by
  rw [directRank_ok_rankings_fold answers o r g hd]
  unfold specDirectRankings
  rw [pickFold_eq]
  exact ddfFold_eq_append_filter _ _ (dedupKeepFirst_nodup _)

/-! ### Claim theorems -/

/-- Claim C1: for every candidate list whose identifiers are pairwise
distinct, and for every oracle behavior (successful, throwing, or
returning unparseable or malformed responses — all expressible as an
`Oracle` value), the ranking list returned by `pairwiseJudge` is a
permutation of exactly the input identifiers: no duplicates, no
omissions, no identifiers outside the input set. -/
theorem c1_rankings_permutation (answers : List AnswerEntry) (o : Oracle)
    (h : (answers.map (·.id)).Nodup) :
    (pairwiseJudge answers o).1.Perm (answers.map (·.id)) := by
  by_cases h1 : answers.length ≤ 1
  · rw [pairwiseJudge_small answers o h1]
  · by_cases h3 : answers.length ≤ 3
    · rw [pairwiseJudge_direct answers o (by omega) h3]
      cases hd : o.direct with
      | fail => rw [directRank_fail answers o hd]
      | ok r g => exact directRank_ok_perm answers o r g hd h
    · rw [pairwiseJudge_tournament answers o (by omega)]
      exact tournamentRank_perm answers o h

/-- Witness for C1 at a concrete 4-candidate input with an always-failing
oracle. -/
theorem c1_rankings_permutation_witness :
    (([⟨"a", "1"⟩, ⟨"b", "2"⟩, ⟨"c", "3"⟩, ⟨"d", "4"⟩] :
        List AnswerEntry).map (·.id)).Nodup
    ∧ (pairwiseJudge
        [⟨"a", "1"⟩, ⟨"b", "2"⟩, ⟨"c", "3"⟩, ⟨"d", "4"⟩] allFailOracle).1.Perm
        (([⟨"a", "1"⟩, ⟨"b", "2"⟩, ⟨"c", "3"⟩, ⟨"d", "4"⟩] :
          List AnswerEntry).map (·.id)) :=
  ⟨by decide, c1_rankings_permutation _ allFailOracle (by decide)⟩

/-- Claim C2: for every nonempty candidate list with pairwise-distinct
identifiers, and for every oracle behavior, the good-answers list
returned by `pairwiseJudge` is nonempty and contained in the input
identifier set. -/
theorem c2_good_nonempty_subset (answers : List AnswerEntry) (o : Oracle)
    (hne : answers ≠ []) (h : (answers.map (·.id)).Nodup) :
    (pairwiseJudge answers o).2 ≠ []
    ∧ ∀ x ∈ (pairwiseJudge answers o).2, x ∈ answers.map (·.id) := by
  have hids : answers.map (·.id) ≠ [] := by
    simpa using hne
  by_cases h1 : answers.length ≤ 1
  · rw [pairwiseJudge_small answers o h1]
    exact ⟨hids, fun x hx => hx⟩
  · by_cases h3 : answers.length ≤ 3
    · rw [pairwiseJudge_direct answers o (by omega) h3]
      cases hd : o.direct with
      | fail =>
          rw [directRank_fail answers o hd]
          exact ⟨hids, fun x hx => hx⟩
      | ok r g =>
          have hrne : (directRank answers o).1 ≠ [] := by
            intro he
            rcases List.exists_mem_of_ne_nil _ hids with ⟨x, hx⟩
            have hx2 := (directRank_ok_mem answers o r g hd x).mpr hx
            rw [he] at hx2
            cases hx2
          constructor
          · rw [directRank_ok_good_fold answers o r g hd]
            by_cases hv : (g.filter
                (fun id =>
                  (dedupKeepFirst (answers.map (·.id))).contains id)).length > 0
            · rw [if_pos hv]
              intro he
              rw [he] at hv
              simp at hv
            · rw [if_neg hv, Ne, List.take_eq_nil_iff]
              rintro (h0 | h0)
              · omega
              · exact hrne h0
          · intro x hx
            rw [directRank_ok_good_fold answers o r g hd] at hx
            by_cases hv : (g.filter
                (fun id =>
                  (dedupKeepFirst (answers.map (·.id))).contains id)).length > 0
            · rw [if_pos hv] at hx
              have hc := (List.mem_filter.mp hx).2
              exact (dedupKeepFirst_mem _ _).mp ((contains_true_iff _ _).mp hc)
            · rw [if_neg hv] at hx
              exact (directRank_ok_mem answers o r g hd x).mp
                (List.mem_of_mem_take hx)
    · rw [pairwiseJudge_tournament answers o (by omega)]
      have hperm := tournamentRank_perm answers o h
      have h0 : (tournamentRank answers o).1 ≠ [] := by
        intro hnil
        have hlen := hperm.length_eq
        rw [hnil] at hlen
        simp at hlen
        exact hne (List.length_eq_zero.mp hlen.symm)
      constructor
      · rw [tournamentRank_good, Ne, List.take_eq_nil_iff]
        rintro (he | he)
        · omega
        · exact h0 he
      · intro x hx
        rw [tournamentRank_good] at hx
        exact hperm.mem_iff.mp (List.mem_of_mem_take hx)

/-- Witness for C2 at a concrete 2-candidate input with an oracle whose
structured reply is malformed in both fields. -/
theorem c2_good_nonempty_subset_witness :
    (([⟨"a", "1"⟩, ⟨"b", "2"⟩] : List AnswerEntry) ≠ []
      ∧ (([⟨"a", "1"⟩, ⟨"b", "2"⟩] : List AnswerEntry).map (·.id)).Nodup)
    ∧ ((pairwiseJudge [⟨"a", "1"⟩, ⟨"b", "2"⟩]
          ⟨fun _ => .failure, .ok ["zzz"] ["yyy"]⟩).2 ≠ []
      ∧ ∀ x ∈ (pairwiseJudge [⟨"a", "1"⟩, ⟨"b", "2"⟩]
          ⟨fun _ => .failure, .ok ["zzz"] ["yyy"]⟩).2,
          x ∈ ([⟨"a", "1"⟩, ⟨"b", "2"⟩] : List AnswerEntry).map (·.id)) :=
  ⟨⟨by decide, by decide⟩,
    c2_good_nonempty_subset _ _ (by decide) (by decide)⟩

/-- Claim C9: `pairwiseJudge` on the empty list returns empty ranking
and empty good set, and on a singleton `[x]` returns `([x.id], [x.id])`.
Both results are proved for every oracle simultaneously, which is how a
shallow embedding expresses that no oracle call is consulted: the
`n <= 1` branch returns before the comparison code is reached. -/
theorem c9_trivial_cases :
    (∀ o : Oracle, pairwiseJudge [] o = ([], []))
    ∧ ∀ (x : AnswerEntry) (o : Oracle),
        pairwiseJudge [x] o = ([x.id], [x.id]) :=
  ⟨fun _ => rfl, fun _ _ => rfl⟩

/-- Claim C10 (implicit): a parseable direct-mode oracle response whose
`good_answers` repeats a known identifier makes `directRank` (and hence
`pairwiseJudge`) return that identifier twice in `goodAnswers` — the
filter keeps every occurrence and nothing deduplicates — and the
caller-side validation of `processPendingChallenges`, which checks
membership only, accepts the result, so the duplicate is submitted. -/
theorem c10_duplicate_good_id_submitted :
    directRank [⟨"a", "m"⟩, ⟨"b", "p"⟩]
        ⟨fun _ => .failure, .ok ["a", "b"] ["a", "a"]⟩
      = (["a", "b"], ["a", "a"])
    ∧ pairwiseJudge [⟨"a", "m"⟩, ⟨"b", "p"⟩]
        ⟨fun _ => .failure, .ok ["a", "b"] ["a", "a"]⟩
      = (["a", "b"], ["a", "a"])
    ∧ acceptResult ["a", "b"] ["a", "b"] ["a", "a"] = true
    ∧ ¬(["a", "a"] : List String).Nodup := by
  refine ⟨by decide, by decide, by decide, by decide⟩

/-- Claim C5: the caller-side validation of `processPendingChallenges`
accepts a `(rankings, goodAnswers)` result exactly when `rankings` is a
permutation of the answer identifier set (`dedupKeepFirst answerIds`,
the set of ids with first-occurrence order) and every good id belongs to
that set; in particular the implemented length-plus-containment check is
equivalent to the permutation property. -/
theorem c5_validation_iff (answerIds rankings good : List String) :
    acceptResult answerIds rankings good = true
      ↔ rankings.Perm (dedupKeepFirst answerIds)
        ∧ ∀ x ∈ good, x ∈ answerIds := by
  unfold acceptResult validRankings validGoodAnswers
  rw [Bool.and_eq_true, Bool.and_eq_true]
  constructor
  · rintro ⟨⟨hlen, hall⟩, hgood⟩
    have hlen2 : rankings.length = (dedupKeepFirst answerIds).length :=
      beq_iff_eq.mp hlen
    have hsub : dedupKeepFirst answerIds ⊆ rankings := by
      intro x hx
      have hc := List.all_eq_true.mp hall x hx
      exact (contains_true_iff _ _).mp hc
    constructor
    · exact (((dedupKeepFirst_nodup answerIds).subperm hsub).perm_of_length_le
        (by omega)).symm
    · intro x hx
      have hc := List.all_eq_true.mp hgood x hx
      exact (dedupKeepFirst_mem _ _).mp ((contains_true_iff _ _).mp hc)
  · rintro ⟨hperm, hgood⟩
    refine ⟨⟨beq_iff_eq.mpr hperm.length_eq, ?_⟩, ?_⟩
    · apply List.all_eq_true.mpr
      intro x hx
      exact (contains_true_iff _ _).mpr (hperm.mem_iff.mpr hx)
    · apply List.all_eq_true.mpr
      intro x hx
      exact (contains_true_iff _ _).mpr
        ((dedupKeepFirst_mem _ _).mpr (hgood x hx))

/-- Claim C6: for `n >= 4` the comparison schedule is exactly the `2n`
interleaved pairs `(i, (i+1) mod n)`, `(i, (i+2) mod n)`; a coincident
pair would be skipped before the oracle call, but no scheduled pair is
coincident (so every scheduled pair is compared); and each index `j < n`
occurs exactly twice on the left, exactly twice on the right, hence in
(at least) 4 scheduled pairs. -/
theorem c6_schedule_shape (n : Nat) (hn : 4 ≤ n) :
    pairsSchedule n
      = (List.range n).flatMap (fun i => [(i, (i + 1) % n), (i, (i + 2) % n)])
    ∧ (pairsSchedule n).length = 2 * n
    ∧ comparedPairs n = pairsSchedule n
    ∧ (∀ p ∈ pairsSchedule n, p.1 ≠ p.2)
    ∧ ∀ j, j < n →
        (pairsSchedule n).countP (fun p => p.1 == j) = 2
        ∧ (pairsSchedule n).countP (fun p => p.2 == j) = 2
        ∧ (pairsSchedule n).countP (fun p => p.1 == j || p.2 == j) = 4 := by
  refine ⟨pairsSchedule_eq n, schedule_length n, comparedPairs_eq (by omega),
    schedule_ne (by omega), ?_⟩
  intro j hj
  have hne := schedule_ne (show 3 ≤ n by omega)
  have hdisj : ∀ p ∈ pairsSchedule n,
      ¬((p.1 == j) = true ∧ (p.2 == j) = true) := by
    rintro p hp ⟨hp1, hp2⟩
    rw [beq_iff_eq] at hp1 hp2
    exact hne p hp (by omega)
  refine ⟨schedule_countP_left hj, schedule_countP_right (by omega) hj, ?_⟩
  rw [countP_or_disjoint _ _ _ hdisj, schedule_countP_left hj,
    schedule_countP_right (by omega) hj]

/-- Witness for C6 at the concrete size `n = 4`. -/
theorem c6_schedule_shape_witness :
    4 ≤ 4
    ∧ (pairsSchedule 4
        = (List.range 4).flatMap
            (fun i => [(i, (i + 1) % 4), (i, (i + 2) % 4)])
      ∧ (pairsSchedule 4).length = 2 * 4
      ∧ comparedPairs 4 = pairsSchedule 4
      ∧ (∀ p ∈ pairsSchedule 4, p.1 ≠ p.2)
      ∧ ∀ j, j < 4 →
          (pairsSchedule 4).countP (fun p => p.1 == j) = 2
          ∧ (pairsSchedule 4).countP (fun p => p.2 == j) = 2
          ∧ (pairsSchedule 4).countP (fun p => p.1 == j || p.2 == j) = 4) :=
  ⟨by decide, c6_schedule_shape 4 (by decide)⟩

/-- When every tally is zero, the tournament ranking is exactly the
JavaScript key order of the ids; with pairwise-distinct, non-array-index
ids that is the input order. -/
theorem tournamentRank_zero (answers : List AnswerEntry) (o : Oracle)
    (h : (answers.map (·.id)).Nodup)
    (hidx : ∀ id ∈ answers.map (·.id), isCanonicalIndex id = false)
    (hz : winCounts answers o.pair = fun _ => 0) :
    (tournamentRank answers o).1 = answers.map (·.id) := by
  have hpred : ∀ l : List String,
      l.filter (fun id => winCounts answers o.pair id == 0) = l := by
    intro l
    rw [List.filter_eq_self]
    intro a _
    simp [hz]
  have hstab := tournamentRank_filter_stable answers o 0
  rw [hpred, hpred] at hstab
  rw [hstab, dedupKeepFirst_eq_self _ h, jsKeyOrder_eq_self _ hidx]

/-- Counterexample to claim C3 as stated: four pairwise-distinct ids,
every oracle call failing, yet `pairwiseJudge` returns neither the input
order (JavaScript objects enumerate the array-index keys `"0"`, `"1"`
first, in ascending numeric order) nor the full id set as good (the
tournament always keeps only the top `max(1, ceil(n/2))`). -/
theorem c3_counterexample :
    (([⟨"1", "w"⟩, ⟨"0", "x"⟩, ⟨"a", "y"⟩, ⟨"b", "z"⟩] :
        List AnswerEntry).map (·.id)).Nodup
    ∧ pairwiseJudge [⟨"1", "w"⟩, ⟨"0", "x"⟩, ⟨"a", "y"⟩, ⟨"b", "z"⟩]
        allFailOracle
      = (["0", "1", "a", "b"], ["0", "1"])
    ∧ pairwiseJudge [⟨"1", "w"⟩, ⟨"0", "x"⟩, ⟨"a", "y"⟩, ⟨"b", "z"⟩]
        allFailOracle
      ≠ (([⟨"1", "w"⟩, ⟨"0", "x"⟩, ⟨"a", "y"⟩, ⟨"b", "z"⟩] :
            List AnswerEntry).map (·.id),
         ([⟨"1", "w"⟩, ⟨"0", "x"⟩, ⟨"a", "y"⟩, ⟨"b", "z"⟩] :
            List AnswerEntry).map (·.id)) := by
  refine ⟨by decide, by decide, by decide⟩

/-- Claim C3, amended: with pairwise-distinct ids and an oracle whose
every call fails, `pairwiseJudge` (total, hence throw-free) returns in
direct mode (2-3 answers) the input order with the full id list as good;
in tournament mode (4 or more answers), provided additionally that no id
is a canonical array-index string (otherwise JavaScript object key
enumeration reorders them first, numerically), it returns the input
order with the top `max(1, ceil(n/2))` prefix — not the full set — as
good. -/
theorem c3_total_failure_amended :
    (∀ answers : List AnswerEntry, (answers.map (·.id)).Nodup →
      2 ≤ answers.length → answers.length ≤ 3 →
      pairwiseJudge answers allFailOracle
        = (answers.map (·.id), answers.map (·.id)))
    ∧ ∀ answers : List AnswerEntry, (answers.map (·.id)).Nodup →
        4 ≤ answers.length →
        (∀ id ∈ answers.map (·.id), isCanonicalIndex id = false) →
        pairwiseJudge answers allFailOracle
          = (answers.map (·.id),
             (answers.map (·.id)).take (max 1 ((answers.length + 1) / 2))) := by
  constructor
  · intro answers h h2 h3
    rw [pairwiseJudge_direct answers allFailOracle h2 h3,
      directRank_fail answers allFailOracle rfl]
  · intro answers h h4 hidx
    rw [pairwiseJudge_tournament answers allFailOracle h4]
    have hz : winCounts answers allFailOracle.pair = fun _ => 0 :=
      winCounts_no_wins answers _ (fun _ => Or.inr rfl)
    have hr := tournamentRank_zero answers allFailOracle h hidx hz
    have hg : (tournamentRank answers allFailOracle).2
        = (answers.map (·.id)).take (max 1 ((answers.length + 1) / 2)) := by
      rw [tournamentRank_good, hr, List.length_map]
    exact Prod.ext hr hg

/-- Witness for the amended C3, at a 2-candidate input (direct mode) and
a 4-candidate input with non-numeric ids (tournament mode). -/
theorem c3_total_failure_amended_witness :
    ((([⟨"a", "1"⟩, ⟨"b", "2"⟩] : List AnswerEntry).map (·.id)).Nodup
      ∧ 2 ≤ ([⟨"a", "1"⟩, ⟨"b", "2"⟩] : List AnswerEntry).length
      ∧ ([⟨"a", "1"⟩, ⟨"b", "2"⟩] : List AnswerEntry).length ≤ 3
      ∧ pairwiseJudge [⟨"a", "1"⟩, ⟨"b", "2"⟩] allFailOracle
        = (([⟨"a", "1"⟩, ⟨"b", "2"⟩] : List AnswerEntry).map (·.id),
           ([⟨"a", "1"⟩, ⟨"b", "2"⟩] : List AnswerEntry).map (·.id)))
    ∧ ((([⟨"a", "1"⟩, ⟨"b", "2"⟩, ⟨"c", "3"⟩, ⟨"d", "4"⟩] :
          List AnswerEntry).map (·.id)).Nodup
      ∧ 4 ≤ ([⟨"a", "1"⟩, ⟨"b", "2"⟩, ⟨"c", "3"⟩, ⟨"d", "4"⟩] :
          List AnswerEntry).length
      ∧ (∀ id ∈ ([⟨"a", "1"⟩, ⟨"b", "2"⟩, ⟨"c", "3"⟩, ⟨"d", "4"⟩] :
          List AnswerEntry).map (·.id), isCanonicalIndex id = false)
      ∧ pairwiseJudge [⟨"a", "1"⟩, ⟨"b", "2"⟩, ⟨"c", "3"⟩, ⟨"d", "4"⟩]
          allFailOracle
        = (([⟨"a", "1"⟩, ⟨"b", "2"⟩, ⟨"c", "3"⟩, ⟨"d", "4"⟩] :
             List AnswerEntry).map (·.id),
           (([⟨"a", "1"⟩, ⟨"b", "2"⟩, ⟨"c", "3"⟩, ⟨"d", "4"⟩] :
             List AnswerEntry).map (·.id)).take
             (max 1 ((([⟨"a", "1"⟩, ⟨"b", "2"⟩, ⟨"c", "3"⟩, ⟨"d", "4"⟩] :
               List AnswerEntry).length + 1) / 2)))) :=
  ⟨⟨by decide, by decide, by decide,
    c3_total_failure_amended.1 _ (by decide) (by decide) (by decide)⟩,
   ⟨by decide, by decide, by decide,
    c3_total_failure_amended.2 _ (by decide) (by decide) (by decide)⟩⟩

/-- Counterexample to claim C4 as stated: four pairwise-distinct ids,
every comparison a tie (all win counts stay zero), yet the ranking is
not the input order, because JavaScript object key enumeration places
the array-index ids `"0"`, `"1"` first in ascending numeric order before
the stable sort ever runs. -/
theorem c4_counterexample :
    (([⟨"1", "w"⟩, ⟨"0", "x"⟩, ⟨"a", "y"⟩, ⟨"b", "z"⟩] :
        List AnswerEntry).map (·.id)).Nodup
    ∧ (pairwiseJudge [⟨"1", "w"⟩, ⟨"0", "x"⟩, ⟨"a", "y"⟩, ⟨"b", "z"⟩]
        allTieOracle).1
      = ["0", "1", "a", "b"]
    ∧ (pairwiseJudge [⟨"1", "w"⟩, ⟨"0", "x"⟩, ⟨"a", "y"⟩, ⟨"b", "z"⟩]
        allTieOracle).1
      ≠ ([⟨"1", "w"⟩, ⟨"0", "x"⟩, ⟨"a", "y"⟩, ⟨"b", "z"⟩] :
          List AnswerEntry).map (·.id) := by
  refine ⟨by decide, by decide, by decide⟩

/-- Claim C4, amended: in tournament mode with pairwise-distinct ids
none of which is a canonical array-index string, candidates with equal
win counts retain their relative input order under every oracle (stable
sort; stated as: for each count value, the ids carrying it appear in the
ranking as the same subsequence as in the input), and in particular an
all-tie oracle yields exactly the input order. -/
theorem c4_tiebreak_stability_amended (answers : List AnswerEntry)
    (h : (answers.map (·.id)).Nodup) (h4 : 4 ≤ answers.length)
    (hidx : ∀ id ∈ answers.map (·.id), isCanonicalIndex id = false) :
    (∀ (o : Oracle) (c : Nat),
      (pairwiseJudge answers o).1.filter
          (fun id => winCounts answers o.pair id == c)
        = (answers.map (·.id)).filter
            (fun id => winCounts answers o.pair id == c))
    ∧ (pairwiseJudge answers allTieOracle).1 = answers.map (·.id) := by
  constructor
  · intro o c
    rw [pairwiseJudge_tournament answers o h4,
      tournamentRank_filter_stable answers o c,
      dedupKeepFirst_eq_self _ h, jsKeyOrder_eq_self _ hidx]
  · rw [pairwiseJudge_tournament answers allTieOracle h4]
    exact tournamentRank_zero answers allTieOracle h hidx
      (winCounts_no_wins answers _ (fun _ => Or.inl rfl))

/-- Witness for the amended C4 at a concrete 4-candidate input,
instantiating the stability clause with the always-failing oracle and
count value 0. -/
theorem c4_tiebreak_stability_amended_witness :
    ((([⟨"a", "1"⟩, ⟨"b", "2"⟩, ⟨"c", "3"⟩, ⟨"d", "4"⟩] :
        List AnswerEntry).map (·.id)).Nodup
      ∧ 4 ≤ ([⟨"a", "1"⟩, ⟨"b", "2"⟩, ⟨"c", "3"⟩, ⟨"d", "4"⟩] :
          List AnswerEntry).length
      ∧ (∀ id ∈ ([⟨"a", "1"⟩, ⟨"b", "2"⟩, ⟨"c", "3"⟩, ⟨"d", "4"⟩] :
          List AnswerEntry).map (·.id), isCanonicalIndex id = false))
    ∧ (pairwiseJudge [⟨"a", "1"⟩, ⟨"b", "2"⟩, ⟨"c", "3"⟩, ⟨"d", "4"⟩]
          allFailOracle).1.filter
        (fun id => winCounts [⟨"a", "1"⟩, ⟨"b", "2"⟩, ⟨"c", "3"⟩, ⟨"d", "4"⟩]
          allFailOracle.pair id == 0)
      = (([⟨"a", "1"⟩, ⟨"b", "2"⟩, ⟨"c", "3"⟩, ⟨"d", "4"⟩] :
          List AnswerEntry).map (·.id)).filter
        (fun id => winCounts [⟨"a", "1"⟩, ⟨"b", "2"⟩, ⟨"c", "3"⟩, ⟨"d", "4"⟩]
          allFailOracle.pair id == 0)
    ∧ (pairwiseJudge [⟨"a", "1"⟩, ⟨"b", "2"⟩, ⟨"c", "3"⟩, ⟨"d", "4"⟩]
          allTieOracle).1
      = ([⟨"a", "1"⟩, ⟨"b", "2"⟩, ⟨"c", "3"⟩, ⟨"d", "4"⟩] :
          List AnswerEntry).map (·.id) :=
  ⟨⟨by decide, by decide, by decide⟩,
   (c4_tiebreak_stability_amended _ (by decide) (by decide) (by decide)).1
     allFailOracle 0,
   (c4_tiebreak_stability_amended _ (by decide) (by decide) (by decide)).2⟩

/-- Claim C7: in direct-ranking mode (2-3 answers, distinct ids), when
the oracle response parses as the structured shape, the returned ranking
is: known ids of the reply first (unknown ids discarded, duplicates
collapsed to the first occurrence), then the omitted known ids in input
order (`specDirectRankings`, written from the spec's words); the ranking
is nonempty; and the good set defaults to the singleton head of the
ranking (`take 1` of a nonempty list) exactly when the reply's good ids
contain no known id, and otherwise is the membership-filtered reply. -/
theorem c7_direct_response_normalization (answers : List AnswerEntry)
    (o : Oracle) (r g : List String)
    (h : (answers.map (·.id)).Nodup)
    (h2 : 2 ≤ answers.length) (h3 : answers.length ≤ 3)
    (hd : o.direct = .ok r g) :
    (pairwiseJudge answers o).1 = specDirectRankings (answers.map (·.id)) r
    ∧ (pairwiseJudge answers o).1 ≠ []
    ∧ (g.filter (fun id => (answers.map (·.id)).contains id) = [] →
        (pairwiseJudge answers o).2 = (pairwiseJudge answers o).1.take 1)
    ∧ (g.filter (fun id => (answers.map (·.id)).contains id) ≠ [] →
        (pairwiseJudge answers o).2
          = g.filter (fun id => (answers.map (·.id)).contains id)) := by
  rw [pairwiseJudge_direct answers o h2 h3]
  have hdd : dedupKeepFirst (answers.map (·.id)) = answers.map (·.id) :=
    dedupKeepFirst_eq_self _ h
  have hids : answers.map (·.id) ≠ [] := by
    intro hnil
    rw [List.map_eq_nil_iff.mp hnil] at h2
    simp at h2
  refine ⟨?_, ?_, ?_, ?_⟩
  · rw [directRank_ok_rankings_spec answers o r g hd, hdd]
  · intro he
    rcases List.exists_mem_of_ne_nil _ hids with ⟨x, hx⟩
    have hx2 := (directRank_ok_mem answers o r g hd x).mpr hx
    rw [he] at hx2
    cases hx2
  · intro hge
    rw [directRank_ok_good_fold answers o r g hd, hdd, hge]
    rfl
  · intro hge
    rw [directRank_ok_good_fold answers o r g hd, hdd,
      if_pos (List.length_pos.mpr hge)]

/-- Witness for C7: three candidates, a reply ranking with one unknown
id, one duplicated id, one omitted id, and no usable good ids. -/
theorem c7_direct_response_normalization_witness :
    ((([⟨"a", "1"⟩, ⟨"b", "2"⟩, ⟨"c", "3"⟩] :
        List AnswerEntry).map (·.id)).Nodup
      ∧ 2 ≤ ([⟨"a", "1"⟩, ⟨"b", "2"⟩, ⟨"c", "3"⟩] : List AnswerEntry).length
      ∧ ([⟨"a", "1"⟩, ⟨"b", "2"⟩, ⟨"c", "3"⟩] : List AnswerEntry).length ≤ 3)
    ∧ ((pairwiseJudge [⟨"a", "1"⟩, ⟨"b", "2"⟩, ⟨"c", "3"⟩]
          ⟨fun _ => .failure, .ok ["b", "x", "b", "a"] ["zzz"]⟩).1
        = specDirectRankings
            (([⟨"a", "1"⟩, ⟨"b", "2"⟩, ⟨"c", "3"⟩] :
              List AnswerEntry).map (·.id)) ["b", "x", "b", "a"]
      ∧ (pairwiseJudge [⟨"a", "1"⟩, ⟨"b", "2"⟩, ⟨"c", "3"⟩]
          ⟨fun _ => .failure, .ok ["b", "x", "b", "a"] ["zzz"]⟩).1 ≠ []
      ∧ ((["zzz"] : List String).filter
            (fun id => (([⟨"a", "1"⟩, ⟨"b", "2"⟩, ⟨"c", "3"⟩] :
              List AnswerEntry).map (·.id)).contains id) = [] →
          (pairwiseJudge [⟨"a", "1"⟩, ⟨"b", "2"⟩, ⟨"c", "3"⟩]
            ⟨fun _ => .failure, .ok ["b", "x", "b", "a"] ["zzz"]⟩).2
            = (pairwiseJudge [⟨"a", "1"⟩, ⟨"b", "2"⟩, ⟨"c", "3"⟩]
              ⟨fun _ => .failure, .ok ["b", "x", "b", "a"] ["zzz"]⟩).1.take 1)
      ∧ ((["zzz"] : List String).filter
            (fun id => (([⟨"a", "1"⟩, ⟨"b", "2"⟩, ⟨"c", "3"⟩] :
              List AnswerEntry).map (·.id)).contains id) ≠ [] →
          (pairwiseJudge [⟨"a", "1"⟩, ⟨"b", "2"⟩, ⟨"c", "3"⟩]
            ⟨fun _ => .failure, .ok ["b", "x", "b", "a"] ["zzz"]⟩).2
            = (["zzz"] : List String).filter
                (fun id => (([⟨"a", "1"⟩, ⟨"b", "2"⟩, ⟨"c", "3"⟩] :
                  List AnswerEntry).map (·.id)).contains id))) :=
  ⟨⟨by decide, by decide, by decide⟩,
   c7_direct_response_normalization _ _ ["b", "x", "b", "a"] ["zzz"]
     (by decide) (by decide) (by decide) rfl⟩

/-- Claim C8: in tournament mode with distinct ids, for every oracle the
good list is exactly the first `max(1, ceil(n/2))` elements of the
returned ranking; and for 5 candidates with pairwise-distinct win counts
it has exactly 3 members, each with a strictly higher win count than
every candidate left out. -/
theorem c8_tournament_good_take :
    (∀ (answers : List AnswerEntry) (o : Oracle),
      (answers.map (·.id)).Nodup → 4 ≤ answers.length →
      (pairwiseJudge answers o).2
        = (pairwiseJudge answers o).1.take (max 1 ((answers.length + 1) / 2)))
    ∧ ∀ (answers : List AnswerEntry) (o : Oracle),
        (answers.map (·.id)).Nodup → answers.length = 5 →
        (∀ a ∈ answers.map (·.id), ∀ b ∈ answers.map (·.id), a ≠ b →
          winCounts answers o.pair a ≠ winCounts answers o.pair b) →
        (pairwiseJudge answers o).2.length = 3
        ∧ ∀ x ∈ (pairwiseJudge answers o).2,
            ∀ y ∈ answers.map (·.id), y ∉ (pairwiseJudge answers o).2 →
            winCounts answers o.pair y < winCounts answers o.pair x := by
  constructor
  · intro answers o h h4
    rw [pairwiseJudge_tournament answers o h4, tournamentRank_good]
    have hlen : (tournamentRank answers o).1.length = answers.length := by
      rw [(tournamentRank_perm answers o h).length_eq, List.length_map]
    rw [hlen]
  · intro answers o h h5 hinj
    have h4 : 4 ≤ answers.length := by omega
    rw [pairwiseJudge_tournament answers o h4]
    have hperm := tournamentRank_perm answers o h
    have hlen : (tournamentRank answers o).1.length = 5 := by
      rw [hperm.length_eq, List.length_map, h5]
    have hgood : (tournamentRank answers o).2
        = (tournamentRank answers o).1.take 3 := by
      rw [tournamentRank_good, hlen]
      norm_num
    constructor
    · rw [hgood, List.length_take, hlen]
      norm_num
    · intro x hx y hy hyn
      rw [hgood] at hx hyn
      have hyr : y ∈ (tournamentRank answers o).1 := hperm.mem_iff.mpr hy
      have hxr : x ∈ (tournamentRank answers o).1 := List.mem_of_mem_take hx
      have hxids : x ∈ answers.map (·.id) := hperm.mem_iff.mp hxr
      have hyd : y ∈ (tournamentRank answers o).1.drop 3 := by
        rw [← List.take_append_drop 3 (tournamentRank answers o).1,
          List.mem_append] at hyr
        rcases hyr with hyt | hyd
        · exact absurd hyt hyn
        · exact hyd
      have hle : winCounts answers o.pair y ≤ winCounts answers o.pair x :=
        List.Sorted.rel_of_mem_take_of_mem_drop
          (tournamentRank_pairwise answers o) hx hyd
      have hxy : y ≠ x := by
        rintro rfl
        exact hyn hx
      exact Nat.lt_of_le_of_ne hle (hinj y hy x hxids hxy)

/-- Witness for C8 at 5 concrete candidates and an oracle giving the
pairwise-distinct win counts 4, 3, 2, 1, 0. -/
theorem c8_tournament_good_take_witness :
    ((([⟨"a", "1"⟩, ⟨"b", "2"⟩, ⟨"c", "3"⟩, ⟨"d", "4"⟩, ⟨"e", "5"⟩] :
        List AnswerEntry).map (·.id)).Nodup
      ∧ ([⟨"a", "1"⟩, ⟨"b", "2"⟩, ⟨"c", "3"⟩, ⟨"d", "4"⟩, ⟨"e", "5"⟩] :
          List AnswerEntry).length = 5
      ∧ (∀ a ∈ ([⟨"a", "1"⟩, ⟨"b", "2"⟩, ⟨"c", "3"⟩, ⟨"d", "4"⟩, ⟨"e", "5"⟩] :
            List AnswerEntry).map (·.id),
          ∀ b ∈ ([⟨"a", "1"⟩, ⟨"b", "2"⟩, ⟨"c", "3"⟩, ⟨"d", "4"⟩, ⟨"e", "5"⟩] :
            List AnswerEntry).map (·.id), a ≠ b →
          winCounts [⟨"a", "1"⟩, ⟨"b", "2"⟩, ⟨"c", "3"⟩, ⟨"d", "4"⟩, ⟨"e", "5"⟩]
              (Oracle.mk (fun k => if k < 7 then .winA else .winB) .fail).pair a
            ≠ winCounts
                [⟨"a", "1"⟩, ⟨"b", "2"⟩, ⟨"c", "3"⟩, ⟨"d", "4"⟩, ⟨"e", "5"⟩]
                (Oracle.mk (fun k => if k < 7 then .winA else .winB) .fail).pair
                b))
    ∧ (pairwiseJudge [⟨"a", "1"⟩, ⟨"b", "2"⟩, ⟨"c", "3"⟩, ⟨"d", "4"⟩, ⟨"e", "5"⟩]
        ⟨fun k => if k < 7 then .winA else .winB, .fail⟩).2
      = (pairwiseJudge [⟨"a", "1"⟩, ⟨"b", "2"⟩, ⟨"c", "3"⟩, ⟨"d", "4"⟩, ⟨"e", "5"⟩]
        ⟨fun k => if k < 7 then .winA else .winB, .fail⟩).1.take
        (max 1 ((([⟨"a", "1"⟩, ⟨"b", "2"⟩, ⟨"c", "3"⟩, ⟨"d", "4"⟩, ⟨"e", "5"⟩] :
          List AnswerEntry).length + 1) / 2))
    ∧ (pairwiseJudge [⟨"a", "1"⟩, ⟨"b", "2"⟩, ⟨"c", "3"⟩, ⟨"d", "4"⟩, ⟨"e", "5"⟩]
        ⟨fun k => if k < 7 then .winA else .winB, .fail⟩).2.length = 3 :=
  ⟨⟨by decide, by decide, by decide⟩,
   c8_tournament_good_take.1 _ _ (by decide) (by decide),
   (c8_tournament_good_take.2 _ _ (by decide) (by decide) (by decide)).1⟩

end SwormBot
